import Mathlib

/-!
Verification of the interview-agent conversation core: a shallow embedding of
the topic-scheduling logic of `InterviewerAgent.process`
(langchain-interview-agent/src/agents/interviewer_agent.py), the state router
of `Orchestrator.route` (langflow-interview-agent/src/agents/orchestrator.py),
and the research fallback of `ResearchAgent._perform_deep_analysis`
(langchain-interview-agent/src/agents/research_agent.py), together with proofs
and refutations of the documented scheduling properties.
-/

namespace InterviewModel

/-- Left-to-right scan for an occurrence of `n` in the second list. -/
def subScan (n : List Char) : List Char → Bool
  | [] => n.isPrefixOf []
  | c :: cs => n.isPrefixOf (c :: cs) || subScan n cs

/-- Substring test: the Python membership test `needle in haystack`. -/
def containsSub (haystack needle : String) : Bool :=
  subScan needle.data haystack.data

/-- The Python `str.lower()` (ASCII case folding, which covers every string the
agent manipulates). -/
def pyLower (s : String) : String :=
  ⟨s.data.map Char.toLower⟩

/-- Drop leading whitespace characters. -/
def dropLeadWs : List Char → List Char
  | [] => []
  | c :: cs => if c.isWhitespace then dropLeadWs cs else c :: cs

/-- The Python `str.strip()`: drop whitespace at both ends. -/
def pyStrip (l : List Char) : List Char :=
  (dropLeadWs (dropLeadWs l.reverse).reverse)

/-- The internal `normalize` helper of the agent: `str(name).strip().lower()`. -/
def normalize (s : String) : String :=
  ⟨(pyStrip s.data).map Char.toLower⟩

/-- Characters strictly before the first occurrence of `sep`; the whole list
when `sep` does not occur. -/
def takeBeforeSep (sep : List Char) : List Char → List Char
  | [] => []
  | c :: cs => if sep.isPrefixOf (c :: cs) then [] else c :: takeBeforeSep sep cs

/-- `current_topic.split(": ")[-1]`: the display name of a topic tag, i.e. the
suffix after the last occurrence of `": "` (the separator cannot overlap
itself, so the Python left-to-right non-overlapping split ends exactly at the
rightmost occurrence). -/
def topicName (t : String) : String :=
  ⟨(takeBeforeSep (": ".data.reverse) t.data.reverse).reverse⟩

/-- `"unverified" in current_topic.lower()`: the category test used both for
the turn limit and for choosing which counter a retirement increments. -/
def unvCat (t : String) : Bool :=
  containsSub (pyLower t) "unverified"

/-- The fixed disengagement phrase list `unknown_signals`. -/
def unknownSignals : List String :=
  ["don\x27t know", "do not know", "no idea", "not sure",
   "don\x27t have experience", "never used", "don\x27t have any experience",
   "basic structure", "don\x27t know much", "just did", "same questions",
   "skip", "move on", "no experience", "haven\x27t used"]

/-- `is_unknown = any(signal in input_lower for signal in unknown_signals)`. -/
def isUnknownInput (user_input : String) : Bool :=
  unknownSignals.any (fun sig => containsSub (pyLower user_input) sig)

/-- `max_turns = 2 if "unverified" in current_topic.lower() else 3`. -/
def maxTurns (t : String) : Nat :=
  if unvCat t then 2 else 3

/-- An entry of `discovered_projects`: either a dict (whose `name` /
`description` keys may be absent, modelled by `Option`) or a bare string. -/
inductive ProjEntry where
  | dict (name : Option String) (description : Option String)
  | str (s : String)
  deriving DecidableEq, Repr

/-- `p.get("name") if isinstance(p, dict) else p`. -/
def nameOf : ProjEntry → Option String
  | .dict n _ => n
  | .str s => some s

/-- `proj.get("description", "") if isinstance(proj, dict) else ""`. -/
def descrOf : ProjEntry → String
  | .dict _ d => d.getD ""
  | .str _ => ""

/-- The slice of the session context that the scheduling logic of the agent
reads and writes. -/
structure Ctx where
  state : Option String
  current_topic : Option String
  covered_topics : List String
  topic_turns : Nat
  unverified_asked : Nat
  projects_asked : Nat
  unverified_skills : List String
  discovered_projects : List ProjEntry
  cv_skills : List String
  deriving DecidableEq, Repr

/-- Retirement of the active topic (lines 80-93 of the agent): normalize the
display name, and only if it is not already covered, append it to
`covered_topics` and bump the counter of the topic category; then clear the
active topic. -/
def retire (t : String) (c : Ctx) : Ctx :=
  if normalize (topicName t) ∈ c.covered_topics.map normalize then
    { c with current_topic := none, topic_turns := 0 }
  else if unvCat t then
    { c with
      covered_topics := c.covered_topics ++ [topicName t],
      unverified_asked := c.unverified_asked + 1,
      current_topic := none, topic_turns := 0 }
  else
    { c with
      covered_topics := c.covered_topics ++ [topicName t],
      projects_asked := c.projects_asked + 1,
      current_topic := none, topic_turns := 0 }

/-- The transition-policy decision `force_transition` (lines 68-76), stated on
the pre-turn context: the stored `topic_turns` is incremented first when a
topic is active. -/
def forced (user_input : String) (c : Ctx) : Bool :=
  match c.current_topic with
  | none => false
  | some t => isUnknownInput user_input || decide (c.topic_turns + 1 > maxTurns t)

/-- The whole transition phase of a turn: increment `topic_turns` for the
active topic, then retire it when `force_transition` holds. -/
def transition (user_input : String) (c : Ctx) : Ctx :=
  match c.current_topic with
  | none => c
  | some t =>
    if forced user_input c then
      retire t { c with topic_turns := c.topic_turns + 1 }
    else
      { c with topic_turns := c.topic_turns + 1 }

/-- The branch of the topic selector that fires (lines 104-137). -/
inductive Choice where
  | unverified (skill : String)
  | project (name : String) (description : String)
  | verifiedSkill (skill : String)
  | generic
  deriving DecidableEq, Repr

/-- The decision of the topic selector: unverified skill under the strict 1:2 ratio
gate, else the first uncovered discovered project, else the first uncovered
verified CV skill, else the generic fallback. -/
def choose (c : Ctx) : Choice :=
  let nc := c.covered_topics.map normalize
  if c.unverified_asked < c.unverified_skills.length ∧
      c.projects_asked = c.unverified_asked * 2 then
    .unverified (c.unverified_skills.getD c.unverified_asked "")
  else
    let avail := c.discovered_projects.filter (fun p =>
      match nameOf p with
      | some n => decide (n ≠ "" ∧ normalize n ∉ nc)
      | none => false)
    match avail with
    | p :: _ => .project ((nameOf p).getD "") (descrOf p)
    | [] =>
      let uset := c.unverified_skills.map normalize
      let vs := c.cv_skills.filter (fun s =>
        decide (normalize s ∉ uset ∧ normalize s ∉ nc))
      match vs with
      | s :: _ => .verifiedSkill s
      | [] => .generic

/-- The topic string written to `current_topic` by each selector branch; the
generic fallback leaves `current_topic` unset. -/
def applyChoice : Choice → Option String
  | .unverified s => some ("Unverified: " ++ s)
  | .project n _ => some ("Project: " ++ n)
  | .verifiedSkill s => some ("Verified Skill: " ++ s)
  | .generic => none

/-- The selection phase (lines 100-142): the state is normalized to
`INTERVIEWING`, `topic_turns` is reset to 1 (even when the generic fallback
activates no topic), and the chosen topic is stored. -/
def select (c : Ctx) : Ctx :=
  { c with
    state := some "INTERVIEWING",
    topic_turns := 1,
    current_topic := applyChoice (choose c) }

/-- One full interviewer turn on the session context: the transition phase,
then selection whenever the stored state is `INTERVIEW_START` or no topic is
active afterwards. -/
def process (user_input : String) (c : Ctx) : Ctx :=
  let c1 := transition user_input c
  if c.state = some "INTERVIEW_START" ∨ c1.current_topic = none then
    select c1
  else
    c1

/-- Session contexts the interviewer can be run on: interviewing starts with
no active topic, empty coverage and zeroed counters over whatever pools the
research phase produced, and evolves only by interviewer turns. -/
inductive Reachable : Ctx → Prop
  | init (st : Option String) (skills : List String) (projs : List ProjEntry)
      (cv : List String) :
      Reachable { state := st, current_topic := none, covered_topics := [],
                  topic_turns := 0, unverified_asked := 0, projects_asked := 0,
                  unverified_skills := skills, discovered_projects := projs,
                  cv_skills := cv }
  | step (user_input : String) {c : Ctx} :
      Reachable c → Reachable (process user_input c)

/-! ### Basic facts about the embedded string operations -/

theorem String.eq_of_data_eq {s t : String} (h : s.data = t.data) : s = t := by
  cases s; cases t; exact congrArg String.mk h

theorem append_left_cancel {a s t : String} (h : a ++ s = a ++ t) : s = t := by
  apply String.eq_of_data_eq
  have hd : a.data ++ s.data = a.data ++ t.data := by
    rw [← String.data_append, ← String.data_append, h]
  exact List.append_cancel_left hd

theorem project_ne_unverified (n s : String) :
    ("Project: " ++ n) ≠ ("Unverified: " ++ s) := by
  intro h
  have hd : ("Project: " ++ n).data = ("Unverified: " ++ s).data := by rw [h]
  rw [String.data_append, String.data_append] at hd
  have hhead : 'P' = 'U' := congrArg (fun l => l.headD ' ') hd
  exact absurd hhead (by decide)

theorem verified_ne_unverified (n s : String) :
    ("Verified Skill: " ++ n) ≠ ("Unverified: " ++ s) := by
  intro h
  have hd : ("Verified Skill: " ++ n).data = ("Unverified: " ++ s).data := by rw [h]
  rw [String.data_append, String.data_append] at hd
  have hhead : 'V' = 'U' := congrArg (fun l => l.headD ' ') hd
  exact absurd hhead (by decide)

/-! ### C1: the ratio gate of the topic selector -/

/-- Claim C1: On a turn where the topic selector runs (no active topic), it
activates an unverified-skill topic if and only if
`unverified_asked < len(unverified_skills)` and
`projects_asked == unverified_asked * 2`, and the activated skill is exactly
`unverified_skills[unverified_asked]` (front-to-back consumption). -/
theorem selector_unverified_iff (c : Ctx) (_h : c.current_topic = none) (s : String) :
    (select c).current_topic = some ("Unverified: " ++ s) ↔
      (c.unverified_asked < c.unverified_skills.length ∧
       c.projects_asked = c.unverified_asked * 2 ∧
       s = c.unverified_skills.getD c.unverified_asked "") := by
  have hsel : (select c).current_topic = applyChoice (choose c) := rfl
  by_cases hc : c.unverified_asked < c.unverified_skills.length ∧
      c.projects_asked = c.unverified_asked * 2
  · rw [hsel]
    have hch : choose c = .unverified (c.unverified_skills.getD c.unverified_asked "") := by
      simp only [choose, if_pos hc]
    rw [hch]
    constructor
    · intro heq
      refine ⟨hc.1, hc.2, ?_⟩
      have := Option.some.inj heq
      exact (append_left_cancel this).symm
    · rintro ⟨-, -, rfl⟩
      rfl
  · rw [hsel]
    constructor
    · intro heq
      exfalso
      have hch : choose c = (match c.discovered_projects.filter (fun p =>
          match nameOf p with
          | some n => decide (n ≠ "" ∧ normalize n ∉ c.covered_topics.map normalize)
          | none => false) with
        | p :: _ => Choice.project ((nameOf p).getD "") (descrOf p)
        | [] =>
          match c.cv_skills.filter (fun s =>
            decide (normalize s ∉ c.unverified_skills.map normalize ∧
              normalize s ∉ c.covered_topics.map normalize)) with
          | s :: _ => Choice.verifiedSkill s
          | [] => Choice.generic) := by
        simp only [choose, if_neg hc]
      rcases hav : c.discovered_projects.filter (fun p =>
          match nameOf p with
          | some n => decide (n ≠ "" ∧ normalize n ∉ c.covered_topics.map normalize)
          | none => false) with _ | ⟨p, rest⟩
      · rcases hvs : c.cv_skills.filter (fun s =>
            decide (normalize s ∉ c.unverified_skills.map normalize ∧
              normalize s ∉ c.covered_topics.map normalize)) with _ | ⟨v, vrest⟩
        · rw [hch, hav, hvs] at heq
          exact Option.noConfusion heq
        · rw [hch, hav, hvs] at heq
          exact verified_ne_unverified v s (Option.some.inj heq)
      · rw [hch, hav] at heq
        exact project_ne_unverified ((nameOf p).getD "") s (Option.some.inj heq)
    · rintro ⟨h1, h2, -⟩
      exact absurd ⟨h1, h2⟩ hc

/-- Witness for `selector_unverified_iff` at a concrete context. -/
theorem selector_unverified_iff_witness :
    (select { state := some "INTERVIEWING", current_topic := none,
              covered_topics := [], topic_turns := 0, unverified_asked := 0,
              projects_asked := 0, unverified_skills := ["Kubernetes"],
              discovered_projects := [.dict (some "PayAPI") (some "")],
              cv_skills := [] }).current_topic = some ("Unverified: " ++ "Kubernetes") :=
  (selector_unverified_iff _ rfl "Kubernetes").mpr (by decide)

/-! ### Transition-policy lemmas -/

theorem retire_topic_none (t : String) (c : Ctx) : (retire t c).current_topic = none := by
  unfold retire
  split <;> (try split) <;> rfl

theorem retire_turns_zero (t : String) (c : Ctx) : (retire t c).topic_turns = 0 := by
  unfold retire
  split <;> (try split) <;> rfl

theorem select_covered (c : Ctx) : (select c).covered_topics = c.covered_topics := rfl

theorem select_unv (c : Ctx) : (select c).unverified_asked = c.unverified_asked := rfl

theorem select_proj (c : Ctx) : (select c).projects_asked = c.projects_asked := rfl

theorem select_skills (c : Ctx) : (select c).unverified_skills = c.unverified_skills := rfl

theorem process_covered (input : String) (c : Ctx) :
    (process input c).covered_topics = (transition input c).covered_topics := by
  unfold process
  dsimp only
  split <;> rfl

theorem process_unv (input : String) (c : Ctx) :
    (process input c).unverified_asked = (transition input c).unverified_asked := by
  unfold process
  dsimp only
  split <;> rfl

theorem process_proj (input : String) (c : Ctx) :
    (process input c).projects_asked = (transition input c).projects_asked := by
  unfold process
  dsimp only
  split <;> rfl

theorem transition_forced (input : String) (c : Ctx) (t : String)
    (ht : c.current_topic = some t) (hf : forced input c = true) :
    transition input c = retire t { c with topic_turns := c.topic_turns + 1 } := by
  unfold transition
  rw [ht]
  simp [hf]

theorem transition_unforced (input : String) (c : Ctx) (t : String)
    (ht : c.current_topic = some t) (hf : forced input c = false) :
    transition input c = { c with topic_turns := c.topic_turns + 1 } := by
  unfold transition
  rw [ht]
  simp [hf]

/-! ### C4: the strict turn limit -/

/-- Claim C4: With an active topic and no disengagement phrase in the input,
the transition phase retires the topic exactly when the incremented
`topic_turns` strictly exceeds `max_turns` (2 for unverified-skill topics,
3 otherwise); at the limit itself the topic survives. -/
theorem turn_limit_iff (input : String) (c : Ctx) (t : String)
    (ht : c.current_topic = some t) (hu : isUnknownInput input = false) :
    (transition input c).current_topic = none ↔ c.topic_turns + 1 > maxTurns t := by
  have hf : forced input c = decide (c.topic_turns + 1 > maxTurns t) := by
    unfold forced
    rw [ht, hu]
    simp
  by_cases hgt : c.topic_turns + 1 > maxTurns t
  · have hft : forced input c = true := by rw [hf, decide_eq_true_eq]; exact hgt
    rw [transition_forced input c t ht hft, retire_topic_none]
    simp [hgt]
  · have hff : forced input c = false := by rw [hf, decide_eq_false_iff_not]; exact hgt
    rw [transition_unforced input c t ht hff]
    simpa [ht] using hgt

/-- Witness for `turn_limit_iff`: an unverified-skill topic with two recorded
turns is cut off on the next turn (`3 > 2`). -/
theorem turn_limit_iff_witness :
    (transition "tell me more"
      { state := some "INTERVIEWING", current_topic := some "Unverified: Docker",
        covered_topics := [], topic_turns := 2, unverified_asked := 0,
        projects_asked := 0, unverified_skills := ["Docker"],
        discovered_projects := [], cv_skills := [] }).current_topic = none :=
  (turn_limit_iff "tell me more" _ "Unverified: Docker" rfl (by decide)).mpr (by decide)

/-! ### C6: idempotent retirement -/

/-- Claim C6: Retiring a topic whose normalized name is already covered is a
no-op on the ledger: a repeated forced transition leaves `covered_topics`,
`unverified_asked` and `projects_asked` all unchanged over the full turn. -/
theorem retire_idempotent (input : String) (c : Ctx) (t : String)
    (ht : c.current_topic = some t)
    (hcov : normalize (topicName t) ∈ c.covered_topics.map normalize)
    (hf : forced input c = true) :
    (process input c).covered_topics = c.covered_topics ∧
    (process input c).unverified_asked = c.unverified_asked ∧
    (process input c).projects_asked = c.projects_asked := by
  have htr : transition input c = retire t { c with topic_turns := c.topic_turns + 1 } :=
    transition_forced input c t ht hf
  have hre : retire t { c with topic_turns := c.topic_turns + 1 } =
      { c with topic_turns := 0, current_topic := none } := by
    unfold retire
    rw [if_pos (by simpa using hcov)]
  rw [process_covered, process_unv, process_proj, htr, hre]
  exact ⟨rfl, rfl, rfl⟩

/-- Witness for `retire_idempotent`: a second forced transition away from an
already-covered skill changes nothing. -/
theorem retire_idempotent_witness :
    (process "skip"
      { state := some "INTERVIEWING", current_topic := some "Unverified: X",
        covered_topics := ["X"], topic_turns := 1, unverified_asked := 1,
        projects_asked := 0, unverified_skills := ["X"],
        discovered_projects := [], cv_skills := [] }).covered_topics = ["X"] ∧
    (process "skip"
      { state := some "INTERVIEWING", current_topic := some "Unverified: X",
        covered_topics := ["X"], topic_turns := 1, unverified_asked := 1,
        projects_asked := 0, unverified_skills := ["X"],
        discovered_projects := [], cv_skills := [] }).unverified_asked = 1 :=
  ⟨(retire_idempotent "skip" _ "Unverified: X" rfl (by decide) (by decide)).1,
   (retire_idempotent "skip" _ "Unverified: X" rfl (by decide) (by decide)).2.1⟩

/-! ### C5 (amended): the disengagement short-circuit -/

/-- Claim C5 (amended): A disengagement phrase while a topic is active forces
the transition regardless of `topic_turns`: the topic name ends up covered
and `current_topic` is cleared; the category counter is incremented exactly
once when the name was not yet covered, and is left unchanged (idempotence)
when it already was. -/
theorem disengage_short_circuit (input : String) (c : Ctx) (t : String)
    (ht : c.current_topic = some t) (hu : isUnknownInput input = true) :
    (transition input c).current_topic = none ∧
    normalize (topicName t) ∈ (transition input c).covered_topics.map normalize ∧
    (normalize (topicName t) ∉ c.covered_topics.map normalize →
      ((unvCat t = true →
          (transition input c).unverified_asked = c.unverified_asked + 1 ∧
          (transition input c).projects_asked = c.projects_asked) ∧
       (unvCat t = false →
          (transition input c).projects_asked = c.projects_asked + 1 ∧
          (transition input c).unverified_asked = c.unverified_asked))) ∧
    (normalize (topicName t) ∈ c.covered_topics.map normalize →
      (transition input c).unverified_asked = c.unverified_asked ∧
      (transition input c).projects_asked = c.projects_asked) := by
  have hf : forced input c = true := by
    unfold forced
    rw [ht, hu]
    simp
  have htr : transition input c = retire t { c with topic_turns := c.topic_turns + 1 } :=
    transition_forced input c t ht hf
  rw [htr]
  by_cases hcov : normalize (topicName t) ∈ c.covered_topics.map normalize
  · have hre : retire t { c with topic_turns := c.topic_turns + 1 } =
        { c with topic_turns := 0, current_topic := none } := by
      unfold retire
      rw [if_pos (by simpa using hcov)]
    rw [hre]
    exact ⟨rfl, hcov, fun hn => absurd hcov hn, fun _ => ⟨rfl, rfl⟩⟩
  · by_cases hcat : unvCat t = true
    · have hre : retire t { c with topic_turns := c.topic_turns + 1 } =
          { c with
            covered_topics := c.covered_topics ++ [topicName t],
            unverified_asked := c.unverified_asked + 1,
            current_topic := none, topic_turns := 0 } := by
        unfold retire
        rw [if_neg (by simpa using hcov), if_pos hcat]
      rw [hre]
      refine ⟨rfl, by simp, ?_, fun hmem => absurd hmem hcov⟩
      intro _
      exact ⟨fun _ => ⟨rfl, rfl⟩, fun hfalse => absurd hcat (by simp [hfalse])⟩
    · have hre : retire t { c with topic_turns := c.topic_turns + 1 } =
          { c with
            covered_topics := c.covered_topics ++ [topicName t],
            projects_asked := c.projects_asked + 1,
            current_topic := none, topic_turns := 0 } := by
        unfold retire
        rw [if_neg (by simpa using hcov), if_neg hcat]
      rw [hre]
      refine ⟨rfl, by simp, ?_, fun hmem => absurd hmem hcov⟩
      intro _
      exact ⟨fun htrue => absurd htrue hcat, fun _ => ⟨rfl, rfl⟩⟩

/-- Witness for `disengage_short_circuit`: saying "skip" on a fresh
unverified-skill topic retires it and bumps `unverified_asked` once. -/
theorem disengage_short_circuit_witness :
    (transition "skip"
      { state := some "INTERVIEWING", current_topic := some "Unverified: K",
        covered_topics := [], topic_turns := 1, unverified_asked := 0,
        projects_asked := 0, unverified_skills := ["K"],
        discovered_projects := [], cv_skills := [] }).current_topic = none ∧
    (transition "skip"
      { state := some "INTERVIEWING", current_topic := some "Unverified: K",
        covered_topics := [], topic_turns := 1, unverified_asked := 0,
        projects_asked := 0, unverified_skills := ["K"],
        discovered_projects := [], cv_skills := [] }).unverified_asked = 1 := by
  have H := disengage_short_circuit "skip"
    { state := some "INTERVIEWING", current_topic := some "Unverified: K",
      covered_topics := [], topic_turns := 1, unverified_asked := 0,
      projects_asked := 0, unverified_skills := ["K"],
      discovered_projects := [], cv_skills := [] } "Unverified: K" rfl (by decide)
  exact ⟨H.1, ((H.2.2.1 (by decide)).1 (by decide)).1⟩

/-! ### Reachability invariants -/

theorem unvCat_unverified (s : String) : unvCat ("Unverified: " ++ s) = true := by
  have h1 : (pyLower ("Unverified: " ++ s)).data
      = "unverified: ".data ++ s.data.map Char.toLower := by
    show (("Unverified: " ++ s).data).map Char.toLower = _
    rw [String.data_append, List.map_append]
    rfl
  unfold unvCat containsSub
  rw [h1]
  rfl

theorem transition_none (input : String) (c : Ctx) (h : c.current_topic = none) :
    transition input c = c := by
  unfold transition
  rw [h]

theorem retire_mem (t : String) (c : Ctx)
    (h : normalize (topicName t) ∈ c.covered_topics.map normalize) :
    retire t c = { c with current_topic := none, topic_turns := 0 } := by
  unfold retire
  rw [if_pos h]

theorem retire_new_unv (t : String) (c : Ctx)
    (h : normalize (topicName t) ∉ c.covered_topics.map normalize)
    (hcat : unvCat t = true) :
    retire t c = { c with
      covered_topics := c.covered_topics ++ [topicName t],
      unverified_asked := c.unverified_asked + 1,
      current_topic := none, topic_turns := 0 } := by
  unfold retire
  rw [if_neg h, if_pos hcat]

theorem retire_new_proj (t : String) (c : Ctx)
    (h : normalize (topicName t) ∉ c.covered_topics.map normalize)
    (hcat : unvCat t = false) :
    retire t c = { c with
      covered_topics := c.covered_topics ++ [topicName t],
      projects_asked := c.projects_asked + 1,
      current_topic := none, topic_turns := 0 } := by
  unfold retire
  rw [if_neg h, if_neg (by simp [hcat])]

/-- The inductive strengthening behind the ratio bound: while the
unverified-skill pool is not exhausted `projects_asked` stays at or below
`unverified_asked * 2`, and any active topic of the project/verified category
was selected at a moment where the unverified pick was not due. -/
def RatioInv (c : Ctx) : Prop :=
  (c.unverified_asked < c.unverified_skills.length →
    c.projects_asked ≤ c.unverified_asked * 2) ∧
  (∀ t, c.current_topic = some t → unvCat t = false →
    (c.unverified_skills.length ≤ c.unverified_asked ∨
     c.projects_asked ≠ c.unverified_asked * 2))

theorem ratioInv_transition (input : String) (c : Ctx) (h : RatioInv c) :
    RatioInv (transition input c) := by
  rcases hct : c.current_topic with _ | t
  · rw [transition_none input c hct]
    exact h
  · by_cases hf : forced input c = true
    · rw [transition_forced input c t hct hf]
      by_cases hcov : normalize (topicName t) ∈
          ({ c with topic_turns := c.topic_turns + 1 } : Ctx).covered_topics.map normalize
      · rw [retire_mem t _ hcov]
        exact ⟨h.1, fun t' ht' => by exact absurd ht' (by simp)⟩
      · by_cases hcat : unvCat t = true
        · rw [retire_new_unv t _ hcov hcat]
          refine ⟨?_, fun t' ht' => by exact absurd ht' (by simp)⟩
          intro hlt
          have hu : c.unverified_asked < c.unverified_skills.length := by
            simpa using Nat.lt_of_succ_lt hlt
          have := h.1 hu
          simp only at *
          omega
        · have hcat' : unvCat t = false := by simpa using hcat
          rw [retire_new_proj t _ hcov hcat']
          refine ⟨?_, fun t' ht' => by exact absurd ht' (by simp)⟩
          intro hlt
          have hlt' : c.unverified_asked < c.unverified_skills.length := by simpa using hlt
          have h1 := h.1 hlt'
          have h2 := h.2 t hct hcat'
          simp only at *
          omega
    · have hf' : forced input c = false := by simpa using hf
      rw [transition_unforced input c t hct hf']
      exact ⟨h.1, fun t' ht' hcat' => h.2 t' (by simpa using ht') hcat'⟩

theorem ratioInv_select (c : Ctx) (h : RatioInv c) : RatioInv (select c) := by
  refine ⟨h.1, ?_⟩
  intro t ht hcat
  have htop : applyChoice (choose c) = some t := ht
  by_cases hrc : c.unverified_asked < c.unverified_skills.length ∧
      c.projects_asked = c.unverified_asked * 2
  · exfalso
    have hch : choose c = .unverified (c.unverified_skills.getD c.unverified_asked "") := by
      simp only [choose, if_pos hrc]
    rw [hch] at htop
    have ht' : t = "Unverified: " ++ c.unverified_skills.getD c.unverified_asked "" :=
      (Option.some.inj htop).symm
    rw [ht'] at hcat
    rw [unvCat_unverified] at hcat
    exact Bool.noConfusion hcat
  · rw [Decidable.not_and_iff_or_not, Nat.not_lt] at hrc
    exact hrc

theorem ratioInv_process (input : String) (c : Ctx) (h : RatioInv c) :
    RatioInv (process input c) := by
  unfold process
  dsimp only
  split
  · exact ratioInv_select _ (ratioInv_transition input c h)
  · exact ratioInv_transition input c h

theorem reachable_ratioInv {c : Ctx} (h : Reachable c) : RatioInv c := by
  induction h with
  | init st skills projs cv =>
    exact ⟨fun _ => Nat.zero_le _, fun t ht => by exact absurd ht (by simp)⟩
  | step input _ ih => exact ratioInv_process input _ ih

/-- Normalized coverage stays duplicate-free. -/
theorem nodup_retire (t : String) (c : Ctx)
    (h : (c.covered_topics.map normalize).Nodup) :
    ((retire t c).covered_topics.map normalize).Nodup := by
  by_cases hcov : normalize (topicName t) ∈ c.covered_topics.map normalize
  · rw [retire_mem t c hcov]
    exact h
  · by_cases hcat : unvCat t = true
    · rw [retire_new_unv t c hcov hcat]
      simp only [List.map_append, List.map_cons, List.map_nil]
      simp [List.nodup_append, h, hcov]
    · rw [retire_new_proj t c hcov (by simpa using hcat)]
      simp only [List.map_append, List.map_cons, List.map_nil]
      simp [List.nodup_append, h, hcov]

theorem nodup_process (input : String) (c : Ctx)
    (h : (c.covered_topics.map normalize).Nodup) :
    ((process input c).covered_topics.map normalize).Nodup := by
  rw [process_covered]
  rcases hct : c.current_topic with _ | t
  · rw [transition_none input c hct]
    exact h
  · by_cases hf : forced input c = true
    · rw [transition_forced input c t hct hf]
      exact nodup_retire t _ (by simpa using h)
    · rw [transition_unforced input c t hct (by simpa using hf)]
      exact h

theorem reachable_nodup {c : Ctx} (h : Reachable c) :
    (c.covered_topics.map normalize).Nodup := by
  induction h with
  | init st skills projs cv => simp
  | step input _ ih => exact nodup_process input _ ih

/-- A topic chosen from the discovered-project pool is never already covered. -/
theorem choose_project_fresh (c : Ctx) (n d : String)
    (h : choose c = .project n d) :
    normalize n ∉ c.covered_topics.map normalize := by
  by_cases hrc : c.unverified_asked < c.unverified_skills.length ∧
      c.projects_asked = c.unverified_asked * 2
  · have hch : choose c = .unverified (c.unverified_skills.getD c.unverified_asked "") := by
      simp only [choose, if_pos hrc]
    rw [hch] at h
    exact absurd h (by simp)
  · have hch : choose c = (match c.discovered_projects.filter (fun p =>
        match nameOf p with
        | some n => decide (n ≠ "" ∧ normalize n ∉ c.covered_topics.map normalize)
        | none => false) with
      | p :: _ => Choice.project ((nameOf p).getD "") (descrOf p)
      | [] =>
        match c.cv_skills.filter (fun s =>
          decide (normalize s ∉ c.unverified_skills.map normalize ∧
            normalize s ∉ c.covered_topics.map normalize)) with
        | s :: _ => Choice.verifiedSkill s
        | [] => Choice.generic) := by
      simp only [choose, if_neg hrc]
    rcases hav : c.discovered_projects.filter (fun p =>
        match nameOf p with
        | some n => decide (n ≠ "" ∧ normalize n ∉ c.covered_topics.map normalize)
        | none => false) with _ | ⟨p, rest⟩
    · rcases hvs : c.cv_skills.filter (fun s =>
          decide (normalize s ∉ c.unverified_skills.map normalize ∧
            normalize s ∉ c.covered_topics.map normalize)) with _ | ⟨v, vrest⟩
      · rw [hch, hav, hvs] at h
        exact absurd h (by simp)
      · rw [hch, hav, hvs] at h
        exact absurd h (by simp)
    · rw [hch, hav] at h
      have hmem : p ∈ c.discovered_projects.filter (fun p =>
          match nameOf p with
          | some n => decide (n ≠ "" ∧ normalize n ∉ c.covered_topics.map normalize)
          | none => false) := by
        rw [hav]
        exact List.mem_cons_self p rest
      have hpred := (List.mem_filter.mp hmem).2
      rcases hname : nameOf p with _ | n₀
      · rw [hname] at hpred
        exact absurd hpred (by simp)
      · rw [hname] at hpred
        have hp := of_decide_eq_true hpred
        have hn : n = n₀ := by
          have := (Choice.project.injEq _ _ _ _).mp h.symm
          rw [hname] at this
          simpa using this.1
        rw [hn]
        exact hp.2

/-- A topic chosen from the verified-skill pool is never already covered. -/
theorem choose_verified_fresh (c : Ctx) (s : String)
    (h : choose c = .verifiedSkill s) :
    normalize s ∉ c.covered_topics.map normalize := by
  by_cases hrc : c.unverified_asked < c.unverified_skills.length ∧
      c.projects_asked = c.unverified_asked * 2
  · have hch : choose c = .unverified (c.unverified_skills.getD c.unverified_asked "") := by
      simp only [choose, if_pos hrc]
    rw [hch] at h
    exact absurd h (by simp)
  · have hch : choose c = (match c.discovered_projects.filter (fun p =>
        match nameOf p with
        | some n => decide (n ≠ "" ∧ normalize n ∉ c.covered_topics.map normalize)
        | none => false) with
      | p :: _ => Choice.project ((nameOf p).getD "") (descrOf p)
      | [] =>
        match c.cv_skills.filter (fun s =>
          decide (normalize s ∉ c.unverified_skills.map normalize ∧
            normalize s ∉ c.covered_topics.map normalize)) with
        | s :: _ => Choice.verifiedSkill s
        | [] => Choice.generic) := by
      simp only [choose, if_neg hrc]
    rcases hav : c.discovered_projects.filter (fun p =>
        match nameOf p with
        | some n => decide (n ≠ "" ∧ normalize n ∉ c.covered_topics.map normalize)
        | none => false) with _ | ⟨p, rest⟩
    · rcases hvs : c.cv_skills.filter (fun s =>
          decide (normalize s ∉ c.unverified_skills.map normalize ∧
            normalize s ∉ c.covered_topics.map normalize)) with _ | ⟨v, vrest⟩
      · rw [hch, hav, hvs] at h
        exact absurd h (by simp)
      · rw [hch, hav, hvs] at h
        have hv : s = v := by simpa using h.symm
        have hmem : v ∈ c.cv_skills.filter (fun s =>
            decide (normalize s ∉ c.unverified_skills.map normalize ∧
              normalize s ∉ c.covered_topics.map normalize)) := by
          rw [hvs]
          exact List.mem_cons_self v vrest
        have hpred := of_decide_eq_true (List.mem_filter.mp hmem).2
        rw [hv]
        exact hpred.2
    · rw [hch, hav] at h
      exact absurd h (by simp)

theorem process_turns_ne (input : String) (c : Ctx) :
    (process input c).topic_turns ≠ 0 := by
  unfold process
  dsimp only
  split
  · simp [select]
  · rename_i hn
    rcases hct : c.current_topic with _ | t
    · exact absurd (Or.inr (by rw [transition_none input c hct, hct])) hn
    · by_cases hf : forced input c = true
      · exact absurd (Or.inr (by rw [transition_forced input c t hct hf, retire_topic_none])) hn
      · rw [transition_unforced input c t hct (by simpa using hf)]
        exact Nat.succ_ne_zero _

/-! ### Concrete sessions used to refute the over-strong spec sentences -/

/-- An interview whose research phase produced only project topics. -/
def ctxNoUnv : Ctx :=
  { state := some "INTERVIEWING", current_topic := none, covered_topics := [],
    topic_turns := 0, unverified_asked := 0, projects_asked := 0,
    unverified_skills := [],
    discovered_projects := [.dict (some "A") none, .dict (some "B") none, .dict (some "C") none],
    cv_skills := [] }

/-- Four turns on `ctxNoUnv`: the three projects are successively activated
and skipped away. -/
def runNoUnv : Ctx :=
  process "skip" (process "skip" (process "skip" (process "hello" ctxNoUnv)))

/-- An interview whose unverified-skill pool contains a duplicate name. -/
def ctxDup : Ctx :=
  { state := some "INTERVIEWING", current_topic := none, covered_topics := [],
    topic_turns := 0, unverified_asked := 0, projects_asked := 0,
    unverified_skills := ["X", "X"],
    discovered_projects := [.dict (some "P1") (some "d1"), .dict (some "P2") (some "d2")],
    cv_skills := [] }

/-- Four turns on `ctxDup`: skill `X`, then both projects, then the ratio gate
re-opens and the selector re-activates the already-covered `X`. -/
def runDup : Ctx :=
  process "skip" (process "skip" (process "skip" (process "hello" ctxDup)))

/-- An interview with every candidate pool empty. -/
def ctxEmptyPools : Ctx :=
  { state := some "INTERVIEWING", current_topic := none, covered_topics := [],
    topic_turns := 0, unverified_asked := 0, projects_asked := 0,
    unverified_skills := [], discovered_projects := [], cv_skills := [] }

/-- One turn on `ctxEmptyPools`: the generic fallback fires. -/
def runEmpty : Ctx :=
  process "hello" ctxEmptyPools

/-! ### C2: the ratio bound -/

/-- Claim C2 (counterexample): The bound
`projects_asked ≤ unverified_asked * 2 + 2` fails on a reachable session:
with an empty unverified-skill pool, three skipped project topics drive
`projects_asked` to 3 while `unverified_asked` stays 0. -/
theorem ratio_bound_counterexample :
    Reachable runNoUnv ∧
    runNoUnv.unverified_asked * 2 + 2 < runNoUnv.projects_asked := by
  constructor
  · exact Reachable.step "skip" (Reachable.step "skip" (Reachable.step "skip"
      (Reachable.step "hello" (Reachable.init (some "INTERVIEWING") []
        [.dict (some "A") none, .dict (some "B") none, .dict (some "C") none] []))))
  · decide

/-- Claim C2 (amended): As long as the unverified-skill pool is not exhausted
(`unverified_asked < len(unverified_skills)`), `projects_asked` never exceeds
`unverified_asked * 2 + 2` on any reachable session state. -/
theorem ratio_bound_amended (c : Ctx) (h : Reachable c)
    (hlt : c.unverified_asked < c.unverified_skills.length) :
    c.projects_asked ≤ c.unverified_asked * 2 + 2 :=
  le_trans ((reachable_ratioInv h).1 hlt) (Nat.le_add_right _ 2)

/-- Witness for `ratio_bound_amended` at the initial interviewing state. -/
theorem ratio_bound_amended_witness :
    ({ state := some "INTERVIEWING", current_topic := none, covered_topics := [],
       topic_turns := 0, unverified_asked := 0, projects_asked := 0,
       unverified_skills := ["K"], discovered_projects := [],
       cv_skills := [] } : Ctx).projects_asked ≤
    ({ state := some "INTERVIEWING", current_topic := none, covered_topics := [],
       topic_turns := 0, unverified_asked := 0, projects_asked := 0,
       unverified_skills := ["K"], discovered_projects := [],
       cv_skills := [] } : Ctx).unverified_asked * 2 + 2 :=
  ratio_bound_amended _ (Reachable.init (some "INTERVIEWING") ["K"] [] []) (by decide)

/-! ### C3: no-repeat -/

/-- Claim C3 (counterexample): The selector can re-activate a topic whose
normalized name is already covered: with `unverified_skills = ["X", "X"]` the
unverified branch (which never consults `covered_topics`) re-selects `X`
after it was covered on the second turn. -/
theorem no_repeat_counterexample :
    Reachable runDup ∧
    runDup.current_topic = some "Unverified: X" ∧
    normalize (topicName "Unverified: X") ∈ runDup.covered_topics.map normalize := by
  refine ⟨?_, by decide, by decide⟩
  exact Reachable.step "skip" (Reachable.step "skip" (Reachable.step "skip"
    (Reachable.step "hello" (Reachable.init (some "INTERVIEWING") ["X", "X"]
      [.dict (some "P1") (some "d1"), .dict (some "P2") (some "d2")] []))))

/-- Claim C3 (amended): On every reachable session state the normalized
`covered_topics` list is duplicate-free, and the project and verified-skill
selector branches never activate an already-covered name; only the
unverified-skill branch (which indexes the pool blindly) can repeat one. -/
theorem no_repeat_amended (c : Ctx) (h : Reachable c) :
    (c.covered_topics.map normalize).Nodup ∧
    (∀ n d, choose c = .project n d → normalize n ∉ c.covered_topics.map normalize) ∧
    (∀ s, choose c = .verifiedSkill s → normalize s ∉ c.covered_topics.map normalize) :=
  ⟨reachable_nodup h,
   fun n d hnd => choose_project_fresh c n d hnd,
   fun s hs => choose_verified_fresh c s hs⟩

/-- Witness for `no_repeat_amended` on a session that picks a project. -/
theorem no_repeat_amended_witness :
    (List.map normalize (ctxNoUnv.covered_topics)).Nodup ∧
    normalize "A" ∉ List.map normalize (ctxNoUnv.covered_topics) := by
  have H := no_repeat_amended ctxNoUnv (Reachable.init (some "INTERVIEWING") []
    [.dict (some "A") none, .dict (some "B") none, .dict (some "C") none] [])
  exact ⟨H.1, H.2.1 "A" "" (by decide)⟩

/-! ### C5: the already-covered corner of the disengagement turn -/

/-- Claim C5 (counterexample): A disengagement turn does not always increment
the category counter: on the reachable session `runDup` the active topic
`Unverified: X` is already covered, so saying "skip" clears the topic but
leaves both counters untouched (the idempotence of C6 wins). -/
theorem disengage_counterexample :
    Reachable runDup ∧
    runDup.current_topic = some "Unverified: X" ∧
    isUnknownInput "skip" = true ∧
    (process "skip" runDup).unverified_asked = runDup.unverified_asked ∧
    (process "skip" runDup).projects_asked = runDup.projects_asked := by
  refine ⟨?_, by decide, by decide, by decide, by decide⟩
  exact Reachable.step "skip" (Reachable.step "skip" (Reachable.step "skip"
    (Reachable.step "hello" (Reachable.init (some "INTERVIEWING") ["X", "X"]
      [.dict (some "P1") (some "d1"), .dict (some "P2") (some "d2")] []))))

/-! ### C7: the topic/turn-counter linkage -/

/-- Claim C7 (counterexample): `current_topic is None ⇔ topic_turns == 0` fails
on a reachable state: when every pool is exhausted, the generic fallback turn
leaves `current_topic = None` with `topic_turns = 1`. -/
theorem turns_iff_counterexample :
    Reachable runEmpty ∧
    ¬(runEmpty.current_topic = none ↔ runEmpty.topic_turns = 0) := by
  constructor
  · exact Reachable.step "hello" (Reachable.init (some "INTERVIEWING") [] [] [])
  · decide

/-- Claim C7 (amended): On every reachable session state, `topic_turns == 0`
implies `current_topic is None`; the converse fails only right after a
generic-fallback selection, which resets `topic_turns` to 1 while activating
no topic. -/
theorem turns_zero_amended (c : Ctx) (h : Reachable c)
    (h0 : c.topic_turns = 0) : c.current_topic = none := by
  induction h with
  | init st skills projs cv => rfl
  | step input hr ih => exact absurd h0 (process_turns_ne input _)

/-- Witness for `turns_zero_amended` at the initial interviewing state. -/
theorem turns_zero_amended_witness : ctxEmptyPools.current_topic = none :=
  turns_zero_amended ctxEmptyPools (Reachable.init (some "INTERVIEWING") [] [] []) rfl

end InterviewModel

namespace OrchestratorModel

open InterviewModel (containsSub pyLower)

/-- The routing-relevant slice of a session: its `state` tag and the length of
its `history` list (the chat endpoint appends a user and an assistant entry
after every routed turn). -/
structure OSession where
  state : String
  historyLen : Nat
  deriving DecidableEq, Repr

/-- Which capability `Orchestrator.route` dispatches the turn to. -/
inductive Dispatch where
  | greeting
  | research
  | kpi
  | interviewer
  | feedback
  deriving DecidableEq, Repr

/-- The outcomes of the dispatched agents that feed back into routing state:
whether the research agent reports `next_state = "KPI_CALCULATION"` this turn,
and whether the interviewer runs its selection branch (which writes
`state = "INTERVIEWING"`). Both depend on external services, so they are
universally quantified. -/
structure Oracle where
  researchAdvances : Bool
  interviewerSelects : Bool
  deriving DecidableEq, Repr

/-- `Orchestrator.route`: the greeting short-circuit, then state-based
dispatch. The KPI agent always reports `next_state = "INTERVIEW_START"`; the
feedback and greeting agents never touch `state`. -/
def route (input : String) (o : Oracle) (s : OSession) : Dispatch × OSession :=
  if (containsSub (pyLower input) "hi" || containsSub (pyLower input) "hello" ||
      containsSub (pyLower input) "hey") && decide (s.historyLen < 3) &&
      !(containsSub (pyLower input) "github.com" ||
        containsSub (pyLower input) "linkedin.com") then
    (.greeting, s)
  else if s.state = "START" ∨ s.state = "RESEARCH" then
    (.research, if o.researchAdvances then { s with state := "KPI_CALCULATION" } else s)
  else if s.state = "KPI_CALCULATION" then
    (.kpi, { s with state := "INTERVIEW_START" })
  else if s.state = "INTERVIEW_START" ∨ s.state = "INTERVIEWING" then
    if containsSub (pyLower input) "finish the interview" || decide (25 < s.historyLen) then
      (.feedback, { s with state := "SCORING" })
    else
      (.interviewer, { s with state := "INTERVIEWING" })
  else if s.state = "SCORING" then
    (.feedback, s)
  else
    (.interviewer, if o.interviewerSelects then { s with state := "INTERVIEWING" } else s)

/-- One full chat turn: route, then append the user and assistant history
entries. -/
def turn (input : String) (o : Oracle) (s : OSession) : OSession :=
  { (route input o s).2 with historyLen := (route input o s).2.historyLen + 2 }

/-- Sessions reachable from a fresh session (`state = "START"`, no history)
under any inputs and any collaborator behaviour. -/
inductive OReachable : OSession → Prop
  | init : OReachable { state := "START", historyLen := 0 }
  | step (input : String) (o : Oracle) {s : OSession} :
      OReachable s → OReachable (turn input o s)

/-- Run a whole sequence of further turns. -/
def runTurns (l : List (String × Oracle)) (s : OSession) : OSession :=
  l.foldl (fun s io => turn io.1 io.2 s) s

/-- Inductive router invariant: the state tag is one of the six known states,
and each stage is only reachable with enough accumulated history. -/
def OInv (s : OSession) : Prop :=
  (s.state = "START" ∨ s.state = "RESEARCH" ∨ s.state = "KPI_CALCULATION" ∨
   s.state = "INTERVIEW_START" ∨ s.state = "INTERVIEWING" ∨ s.state = "SCORING") ∧
  (s.state = "KPI_CALCULATION" → 2 ≤ s.historyLen) ∧
  ((s.state = "INTERVIEW_START" ∨ s.state = "INTERVIEWING") → 4 ≤ s.historyLen) ∧
  (s.state = "SCORING" → 6 ≤ s.historyLen)

theorem oinv_turn (input : String) (o : Oracle) (s : OSession) (h : OInv s) :
    OInv (turn input o s) := by
  obtain ⟨hknown, h2, h4, h6⟩ := h
  unfold turn route
  split_ifs with hg hsr hra hk hiv hfin hsc hio
  · -- greeting short-circuit: state unchanged, history grows
    exact ⟨hknown, fun hx => le_trans (h2 hx) (Nat.le_add_right _ 2),
           fun hx => le_trans (h4 hx) (Nat.le_add_right _ 2),
           fun hx => le_trans (h6 hx) (Nat.le_add_right _ 2)⟩
  · -- research advanced to KPI_CALCULATION
    refine ⟨Or.inr (Or.inr (Or.inl rfl)), fun _ => show 2 ≤ s.historyLen + 2 by omega,
           fun hx => ?_, fun hx => ?_⟩
    · exact absurd (show ("KPI_CALCULATION" : String) = "INTERVIEW_START" ∨
        ("KPI_CALCULATION" : String) = "INTERVIEWING" from hx) (by decide)
    · exact absurd (show ("KPI_CALCULATION" : String) = "SCORING" from hx) (by decide)
  · -- research did not advance
    exact ⟨hknown, fun hx => le_trans (h2 hx) (Nat.le_add_right _ 2),
           fun hx => le_trans (h4 hx) (Nat.le_add_right _ 2),
           fun hx => le_trans (h6 hx) (Nat.le_add_right _ 2)⟩
  · -- KPI_CALCULATION advanced to INTERVIEW_START
    have hlen := h2 hk
    refine ⟨Or.inr (Or.inr (Or.inr (Or.inl rfl))), fun hx => ?_,
           fun _ => show 4 ≤ s.historyLen + 2 by omega, fun hx => ?_⟩
    · exact absurd (show ("INTERVIEW_START" : String) = "KPI_CALCULATION" from hx) (by decide)
    · exact absurd (show ("INTERVIEW_START" : String) = "SCORING" from hx) (by decide)
  · -- interviewing finished: SCORING
    have hlen := h4 hiv
    refine ⟨Or.inr (Or.inr (Or.inr (Or.inr (Or.inr rfl)))), fun hx => ?_, fun hx => ?_,
           fun _ => show 6 ≤ s.historyLen + 2 by omega⟩
    · exact absurd (show ("SCORING" : String) = "KPI_CALCULATION" from hx) (by decide)
    · exact absurd (show ("SCORING" : String) = "INTERVIEW_START" ∨
        ("SCORING" : String) = "INTERVIEWING" from hx) (by decide)
  · -- interviewing continues
    have hlen := h4 hiv
    refine ⟨Or.inr (Or.inr (Or.inr (Or.inr (Or.inl rfl)))), fun hx => ?_,
           fun _ => show 4 ≤ s.historyLen + 2 by omega, fun hx => ?_⟩
    · exact absurd (show ("INTERVIEWING" : String) = "KPI_CALCULATION" from hx) (by decide)
    · exact absurd (show ("INTERVIEWING" : String) = "SCORING" from hx) (by decide)
  · -- SCORING stays
    exact ⟨hknown, fun hx => le_trans (h2 hx) (Nat.le_add_right _ 2),
           fun hx => le_trans (h4 hx) (Nat.le_add_right _ 2),
           fun hx => le_trans (h6 hx) (Nat.le_add_right _ 2)⟩
  · -- defensive fallback branch: unreachable for known states
    exact absurd hknown (by
      rintro (h | h | h | h | h | h)
      · exact hsr (Or.inl h)
      · exact hsr (Or.inr h)
      · exact hk h
      · exact hiv (Or.inl h)
      · exact hiv (Or.inr h)
      · exact hsc h)
  · exact absurd hknown (by
      rintro (h | h | h | h | h | h)
      · exact hsr (Or.inl h)
      · exact hsr (Or.inr h)
      · exact hk h
      · exact hiv (Or.inl h)
      · exact hiv (Or.inr h)
      · exact hsc h)

theorem oreach_inv {s : OSession} (h : OReachable s) : OInv s := by
  induction h with
  | init => exact ⟨by simp, by simp, by simp, by simp⟩
  | step input o _ ih => exact oinv_turn input o _ ih

theorem route_scoring (input : String) (o : Oracle) (s : OSession)
    (hs : s.state = "SCORING") (hl : 6 ≤ s.historyLen) :
    route input o s = (.feedback, s) := by
  unfold route
  have hlt : decide (s.historyLen < 3) = false := decide_eq_false (by omega)
  rw [hlt]
  simp only [Bool.and_false, Bool.false_and, Bool.false_eq_true, if_false]
  rw [if_neg (by rw [hs]; decide), if_neg (by rw [hs]; decide),
    if_neg (by rw [hs]; decide), if_pos hs]

theorem turn_scoring (input : String) (o : Oracle) (s : OSession)
    (hs : s.state = "SCORING") (hl : 6 ≤ s.historyLen) :
    turn input o s = { s with historyLen := s.historyLen + 2 } := by
  unfold turn
  rw [route_scoring input o s hs hl]

/-- Claim C8: once the state of a reachable session is `SCORING`, then after any
sequence of further turns the state is still `SCORING` and the next routed
turn — for every input and every collaborator behaviour — is dispatched to
the scoring (feedback) capability. -/
theorem scoring_absorbing (s : OSession) (h : OReachable s)
    (hs : s.state = "SCORING") (l : List (String × Oracle))
    (input : String) (o : Oracle) :
    (runTurns l s).state = "SCORING" ∧
    (route input o (runTurns l s)).1 = Dispatch.feedback := by
  have h6 : 6 ≤ s.historyLen := (oreach_inv h).2.2.2 hs
  clear h
  induction l generalizing s with
  | nil =>
    refine ⟨hs, ?_⟩
    show (route input o s).1 = Dispatch.feedback
    rw [route_scoring input o s hs h6]
  | cons io rest ih =>
    have hstep : runTurns (io :: rest) s = runTurns rest (turn io.1 io.2 s) := rfl
    rw [hstep, turn_scoring io.1 io.2 s hs h6]
    exact ih _ hs (le_trans h6 (Nat.le_add_right _ 2))

/-- Witness for `scoring_absorbing`: a concrete session driven into `SCORING`
(research advances, KPI runs, then the user says "finish the interview"),
after which an arbitrary further turn still scores. -/
theorem scoring_absorbing_witness :
    (runTurns [("why?", ⟨true, true⟩)]
      (turn "finish the interview" ⟨true, true⟩
        (turn "ok" ⟨true, true⟩
          (turn "ok" ⟨true, true⟩ { state := "START", historyLen := 0 })))).state
      = "SCORING" ∧
    (route "hi hello" ⟨true, true⟩
      (runTurns [("why?", ⟨true, true⟩)]
        (turn "finish the interview" ⟨true, true⟩
          (turn "ok" ⟨true, true⟩
            (turn "ok" ⟨true, true⟩ { state := "START", historyLen := 0 }))))).1
      = Dispatch.feedback :=
  scoring_absorbing _
    (OReachable.step "finish the interview" ⟨true, true⟩
      (OReachable.step "ok" ⟨true, true⟩
        (OReachable.step "ok" ⟨true, true⟩ OReachable.init)))
    (by decide) [("why?", ⟨true, true⟩)] "hi hello" ⟨true, true⟩

end OrchestratorModel

namespace ResearchModel

open InterviewModel (ProjEntry nameOf)

/-- An entry of the model-returned `discovered_projects` JSON array: a dict
(possibly without `name` / `description` keys), a bare string, or any other
JSON value. -/
inductive RItem where
  | dict (name : Option String) (description : Option String)
  | str (s : String)
  | other
  deriving DecidableEq, Repr

/-- The parsed deep-analysis JSON payload; each field is optional because the
code reads it with `data.get(key, default)`. -/
structure RData where
  analysis : Option String
  unverified_skills : Option (List String)
  discovered_projects : Option (List RItem)
  deriving DecidableEq, Repr

/-- The normalization loop of `_perform_deep_analysis` (lines 212-217):
dicts are appended unchanged, bare strings become
a dict with name `s` and empty description, anything else is dropped. -/
def normalizeProjects : List RItem → List ProjEntry
  | [] => []
  | .dict n d :: rest => .dict n d :: normalizeProjects rest
  | .str s :: rest => .dict (some s) (some "") :: normalizeProjects rest
  | .other :: rest => normalizeProjects rest

/-- `_perform_deep_analysis` after the LLM chain call: `parsed` is `some data`
when the structured-JSON output of the chain parsed, and `none` when any exception
was raised inside the `try` block; `real_projects` is the repository list
fetched from the verification collaborator (`serper.get_github_repos`). -/
def deepAnalysis (parsed : Option RData) (real_projects : List ProjEntry) :
    String × List String × List ProjEntry :=
  match parsed with
  | none => ("I\x27ve analyzed your profiles and am ready to proceed.", [], real_projects)
  | some data =>
    let normalized := normalizeProjects (data.discovered_projects.getD [])
    let normalized2 :=
      if normalized = [] ∧ real_projects ≠ [] then real_projects else normalized
    (data.analysis.getD "", data.unverified_skills.getD [], normalized2)

/-- Claim C9: When the deep-analysis LLM response fails to parse, the turn still
completes (the recovery is a total function of the collaborator data) and the
result is the canned analysis sentence, the empty unverified-skill list, and
the raw discovered-project list from the verification collaborator. -/
theorem deep_analysis_fallback (real_projects : List ProjEntry) :
    deepAnalysis none real_projects =
      ("I\x27ve analyzed your profiles and am ready to proceed.", [], real_projects) :=
  rfl

/-- A parsed deep-analysis payload whose only project entry is a dict without
a `name` key. -/
def namelessPayload : RData :=
  { analysis := some "ok", unverified_skills := some [],
    discovered_projects := some [RItem.dict none (some "d")] }

/-- Claim C10 (counterexample): Not every returned project entry carries a
`name` field: a model-returned dict without a `name` key is passed through
unchanged, so the output contains an entry with no name. -/
theorem project_name_counterexample :
    (deepAnalysis (some namelessPayload) []).2.2 = [ProjEntry.dict none (some "d")] ∧
    ((deepAnalysis (some namelessPayload) []).2.2.all
      (fun e => (nameOf e).isSome)) = false :=
  ⟨rfl, rfl⟩

/-- How the amended claim reads each model-returned entry: dict entries are
kept unchanged (with or without a `name` field), bare strings become
dicts with the string as name and an empty description, and any other entry is dropped. -/
def specEntryShape : RItem → Option ProjEntry
  | .dict n d => some (.dict n d)
  | .str s => some (.dict (some s) (some ""))
  | .other => none

/-- Claim C10 (amended): The normalization keeps dict entries unchanged (even
without a `name` field), converts bare strings to
name-and-empty-description dicts, drops other entries, and substitutes the
repository list of the collaborator unchanged exactly when nothing usable remains
and that list is nonempty. -/
theorem projects_normalization_amended (data : RData) (rp : List ProjEntry)
    (items : List RItem) :
    normalizeProjects items = items.filterMap specEntryShape ∧
    (deepAnalysis (some data) rp).2.2 =
      (if normalizeProjects (data.discovered_projects.getD []) = [] ∧ rp ≠ []
       then rp else normalizeProjects (data.discovered_projects.getD [])) := by
  constructor
  · induction items with
    | nil => rfl
    | cons hd tl ih => cases hd <;> simp [normalizeProjects, specEntryShape, ih]
  · rfl

end ResearchModel
